import Mathlib

/-!
Verification of the News PWA feed-aggregation pipeline and caching layers.

The development shallowly embeds the application logic (app.js) and the two
observed service-worker variants (sw.js, news-pwa-v1 and news-pwa-v3) as pure
Lean functions.  Network and DOM effects are made explicit:

* a network fetch becomes an input describing the settled outcome of that
  fetch (an `Option`/structure value, where `none` models a rejected promise);
* `localStorage` becomes a function from keys to an optional stored value;
* `Date.now()` becomes an explicit `now : Int` parameter (epoch milliseconds);
* `new Date(s)` becomes a parameter `dateOf : String → Option Int` returning
  the epoch-millisecond value of a parsable date string and `none` for an
  invalid date (`new Date("")` is invalid, so instances satisfy
  `dateOf "" = none`);
* JavaScript string `.slice(0, n)` becomes `jsSlice`, and the DOM-based
  `stripHtml` is modelled as tag removal on the character list.
-/

namespace NewsPWA

/-- CONFIG.CACHE_DURATION_MS: 60 * 60 * 1000 (one hour). -/
def CACHE_DURATION_MS : Int := 60 * 60 * 1000

/-- CONFIG.MAX_ITEMS_PER_FEED. -/
def MAX_ITEMS_PER_FEED : Nat := 10

/-- A feed source from the FEEDS table: `{ url, name, lang }`. -/
structure FeedSource where
  url : String
  name : String
  lang : String
deriving DecidableEq

/-- A normalized news item as built by fetchFeed.  `originalTitle` is present
only when translation occurred. -/
structure NewsItem where
  title : String
  description : String
  link : String
  pubDate : String
  source : String
  lang : String
  originalTitle : Option String := none
deriving DecidableEq

/-- JavaScript `s.slice(0, n)`: the first `n` characters of `s` (the model
uses characters where JavaScript counts UTF-16 units). -/
def jsSlice (s : String) (n : Nat) : String :=
  String.mk (s.toList.take n)

/-- Character-level model of `stripHtml` (DOM innerHTML/textContent round
trip): characters between an unclosed and a closing angle bracket are
removed together with the brackets.  The Boolean flag records whether the
scanner is currently inside a tag. -/
def stripHtmlAux : Bool → List Char → List Char
  | _, [] => []
  | false, c :: rest =>
      if c = '<' then stripHtmlAux true rest else c :: stripHtmlAux false rest
  | true, c :: rest =>
      if c = '>' then stripHtmlAux false rest else stripHtmlAux true rest

/-- stripHtml: remove markup from a string (model of the DOM-based helper). -/
def stripHtml (s : String) : String :=
  String.mk (stripHtmlAux false s.toList)

-- =============================================
-- Persistent cache store (localStorage helpers)
-- =============================================

/-- The value stored under a `news_<section>` key, as seen by JSON.parse:
either text that fails to parse (`malformed`), or a parsed object whose
`timestamp` field is an epoch-millisecond number or absent/non-numeric
(`none`, in which case `Date.now() - data.timestamp` is NaN in the code). -/
inductive StoredEntry where
  | malformed : StoredEntry
  | entry (timestamp : Option Int) (items : List NewsItem) : StoredEntry
deriving DecidableEq

/-- localStorage: a map from keys to optionally present stored values. -/
def Store : Type := String → Option StoredEntry

/-- A parsed cache entry `{ timestamp, items }` as returned by getCachedData. -/
structure CacheEntry where
  timestamp : Option Int
  items : List NewsItem
deriving DecidableEq

/-- getCachedData(section): read `news_<section>`; null when the key is
absent, the JSON fails to parse, or the age of the entry exceeds
CACHE_DURATION_MS.  When `data.timestamp` is absent or non-numeric the age
comparison is `NaN > CACHE_DURATION_MS`, which is false, so the entry is
returned. -/
def getCachedData (store : Store) (now : Int) (sect : String) :
    Option CacheEntry :=
  match store ("news_" ++ sect) with
  | none => none
  | some .malformed => none
  | some (.entry ts items) =>
      match ts with
      | some t => if now - t > CACHE_DURATION_MS then none else some ⟨some t, items⟩
      | none => some ⟨none, items⟩

/-- setCachedData(section, items): write `{timestamp: Date.now(), items}`
under `news_<section>`.  `writeOk = false` models a storage fault (quota
exceeded or storage disabled), which the code silently swallows, leaving the
store unchanged. -/
def setCachedData (store : Store) (now : Int) (sect : String)
    (items : List NewsItem) (writeOk : Bool) : Store :=
  if writeOk then
    fun k => if k = "news_" ++ sect then some (.entry (some now) items) else store k
  else store

-- =============================================
-- Translation client (translateText)
-- =============================================

/-- The in-memory translation memo cache, keyed by
`<fromLang>:<first 100 chars of text>`. -/
def TransCache : Type := List (String × String)

/-- Lookup in the translation memo cache (Map.get / Map.has). -/
def transLookup (c : TransCache) (key : String) : Option String :=
  (c.find? (fun p => p.1 = key)).map (fun p => p.2)

/-- Insertion into the translation memo cache (Map.set). -/
def transInsert (c : TransCache) (key v : String) : TransCache :=
  (key, v) :: c

/-- The settled outcome of one translation fetch: the promise rejected
(`fail`), or a response with its `ok` flag and the translated string
extracted from the nested-array payload (`none` models a payload whose shape
makes the extraction `data[0].map(...)` throw). -/
inductive TransNet where
  | fail : TransNet
  | resp (ok : Bool) (payload : Option String) : TransNet
deriving DecidableEq

/-- Result of one translateText call: the returned text, the memo cache
afterwards, and whether a network request was issued. -/
structure TransResult where
  text : String
  cache : TransCache
  requested : Bool

/-- The memo key `${fromLang}:${text.slice(0, 100)}`. -/
def transKey (text fromLang : String) : String :=
  fromLang ++ ":" ++ jsSlice text 100

/-- translateText(text, fromLang): identity fast path for empty text or
`fromLang === "ru"`; then memo lookup; otherwise one fetch whose outcome is
the `net` parameter.  Failures (rejection, non-OK status, malformed payload)
return the original text without touching the memo cache; only a successful
extraction is memoized. -/
def translateText (text fromLang : String) (cache : TransCache)
    (net : TransNet) : TransResult :=
  if text = "" ∨ fromLang = "ru" then ⟨text, cache, false⟩
  else
    match transLookup cache (transKey text fromLang) with
    | some v => ⟨v, cache, false⟩
    | none =>
        match net with
        | .fail => ⟨text, cache, true⟩
        | .resp ok payload =>
            if ok = false then ⟨text, cache, true⟩
            else
              match payload with
              | none => ⟨text, cache, true⟩
              | some tr =>
                  ⟨tr, transInsert cache (transKey text fromLang) tr, true⟩

/-- A translation outcome counts as a failure when the fetch rejected, the
response status was not OK, or the payload shape made extraction throw. -/
def transNetFailed (net : TransNet) : Prop :=
  net = .fail ∨ (∃ p, net = .resp false p) ∨ net = .resp true none

instance (net : TransNet) : Decidable (transNetFailed net) := by
  unfold transNetFailed
  cases net with
  | fail => exact isTrue (Or.inl rfl)
  | resp ok payload =>
      cases ok with
      | false => exact isTrue (Or.inr (Or.inl ⟨payload, rfl⟩))
      | true =>
          cases payload with
          | none => exact isTrue (Or.inr (Or.inr rfl))
          | some tr =>
              refine isFalse ?_
              rintro (h | ⟨p, h⟩ | h) <;> simp_all

-- =============================================
-- RSS fetching (fetchFeed, fetchSection)
-- =============================================

/-- A raw item of the proxy payload; each field may be absent (undefined). -/
structure RawItem where
  title : Option String := none
  description : Option String := none
  link : Option String := none
  pubDate : Option String := none
deriving DecidableEq

/-- The JSON body of a proxy response: `{status, items}` where `items` may be
absent. -/
structure Payload where
  status : String
  items : Option (List RawItem) := none
deriving DecidableEq

/-- A settled proxy fetch: `ok` is `resp.ok`; `payload = none` models a body
on which `resp.json()` throws. -/
structure ProxyResp where
  ok : Bool
  payload : Option Payload := none
deriving DecidableEq

/-- The per-item normalization inside fetchFeed: strip markup from the title,
strip markup from the description and slice it to 300 characters, default a
missing or empty link to `#`, and tag the item with the name of the feed and
language. -/
def normalizeItem (cfg : FeedSource) (it : RawItem) : NewsItem :=
  { title := stripHtml (it.title.getD "")
    description := jsSlice (stripHtml (it.description.getD "")) 300
    link := if it.link.getD "" = "" then "#" else it.link.getD ""
    pubDate := it.pubDate.getD ""
    source := cfg.name
    lang := cfg.lang
    originalTitle := none }

/-- translateItem(item, fromLang): identity for `ru`; otherwise translate
title and description and keep the pre-translation title in `originalTitle`.
`tr lang text` is the value the corresponding translateText call settles to
(translateText never rejects); an empty description short-circuits to the
empty string in the code. -/
def translateItemM (tr : String → String → String) (fromLang : String)
    (i : NewsItem) : NewsItem :=
  if fromLang = "ru" then i
  else
    { i with
      title := tr fromLang i.title
      description := if i.description = "" then "" else tr fromLang i.description
      originalTitle := some i.title }

/-- fetchFeed(feedConfig): every failure path (rejected fetch, non-OK status,
unparsable JSON, `status !== "ok"`, absent `items`) yields the empty list;
otherwise take at most MAX_ITEMS_PER_FEED items, normalize each, and
translate them when the feed language is not `ru`. -/
def fetchFeed (cfg : FeedSource) (resp : Option ProxyResp)
    (tr : String → String → String) : List NewsItem :=
  match resp with
  | none => []
  | some r =>
      if r.ok = false then []
      else
        match r.payload with
        | none => []
        | some p =>
            if p.status ≠ "ok" then []
            else
              match p.items with
              | none => []
              | some its =>
                  let rawItems := (its.take MAX_ITEMS_PER_FEED).map (normalizeItem cfg)
                  if cfg.lang ≠ "ru" then
                    rawItems.map (translateItemM tr cfg.lang)
                  else rawItems

/-- The fault conditions of a proxy fetch under which fetchFeed degrades to
the empty list. -/
def proxyFault (resp : Option ProxyResp) : Prop :=
  resp = none ∨
    ∃ r, resp = some r ∧
      (r.ok = false ∨ r.payload = none ∨
        ∃ p, r.payload = some p ∧ (p.status ≠ "ok" ∨ p.items = none))

-- =============================================
-- Section aggregation and the Array.prototype.sort model
-- =============================================

/-- The comparator `(a, b) => new Date(b.pubDate) - new Date(a.pubDate)`
under ECMAScript SortCompare semantics: when either date is invalid the
subtraction is NaN, which SortCompare maps to +0, i.e. the pair compares as
equal. -/
def jsDateCmp (dateOf : String → Option Int) (a b : NewsItem) : Int :=
  match dateOf b.pubDate, dateOf a.pubDate with
  | some tb, some ta => tb - ta
  | _, _ => 0

/-- Insert an element into a list so that it comes before the first element
`y` with `c x y ≤ 0` (the stable position for comparator `c`). -/
def insertC (c : α → α → Int) (x : α) : List α → List α
  | [] => [x]
  | y :: ys => if c x y ≤ 0 then x :: y :: ys else y :: insertC c x ys

/-- Stable comparator-driven sort, the model of `Array.prototype.sort`
(ECMAScript requires a stable sort; with a consistent comparator every
stable sort yields this result). -/
def sortC (c : α → α → Int) : List α → List α
  | [] => []
  | x :: xs => insertC c x (sortC c xs)

/-- The merge-and-sort tail of fetchSection: the fulfilled per-feed lists are
flattened by flatMap and sorted with the pubDate comparator.  The elements
of `results` are the values of the settled fetchFeed promises (fetchFeed
never rejects, so every outcome is fulfilled). -/
def fetchSectionSort (dateOf : String → Option Int)
    (results : List (List NewsItem)) : List NewsItem :=
  sortC (jsDateCmp dateOf) results.flatten

/-- The sort key the specification claims: the parsed date, with invalid
dates counted as the epoch. -/
def epochKey (dateOf : String → Option Int) (i : NewsItem) : Int :=
  (dateOf i.pubDate).getD 0

/-- Descending sortedness of a list under an integer key. -/
def sortedDescB (key : α → Int) : List α → Bool
  | [] => true
  | [_] => true
  | a :: b :: rest => (key b ≤ key a : Bool) && sortedDescB key (b :: rest)

-- =============================================
-- Service worker: asset cache and fetch handlers
-- =============================================

/-- A network response as seen by the service worker. -/
structure SWResponse where
  ok : Bool
  body : String
deriving DecidableEq

/-- The request-keyed asset cache (Cache API), most recent entry first. -/
def AssetCache : Type := List (String × SWResponse)

/-- caches.match(request). -/
def cacheMatch (c : AssetCache) (req : String) : Option SWResponse :=
  (c.find? (fun p => p.1 = req)).map (fun p => p.2)

/-- cache.put(request, response). -/
def cachePut (c : AssetCache) (req : String) (r : SWResponse) : AssetCache :=
  (req, r) :: c

/-- The observable outcome of one intercepted fetch: the response handed to
the page (none models a failed respondWith), the asset cache afterwards,
whether a live network fetch was attempted, and whether the cache was
consulted for a match. -/
structure FetchOutcome where
  response : Option SWResponse
  cache : AssetCache
  networkAttempted : Bool
  cacheConsulted : Bool

/-- The same-origin branch of the v1 service worker (sw.js, news-pwa-v1):
`caches.match(request).then(cached => cached || fetch(request))` — cache
first, network only on a cache miss, and nothing is written to the cache. -/
def handleSameOriginV1 (req : String) (net : Option SWResponse)
    (cache : AssetCache) : FetchOutcome :=
  match cacheMatch cache req with
  | some r => ⟨some r, cache, false, true⟩
  | none => ⟨net, cache, true, true⟩

/-- The same-origin branch of the v3 service worker (news-pwa-v3): fetch the
network first; on any settled response clone it into the cache and return
it; on rejection fall back to `caches.match`. -/
def handleSameOriginV3 (req : String) (net : Option SWResponse)
    (cache : AssetCache) : FetchOutcome :=
  match net with
  | some r => ⟨some r, cachePut cache req r, true, false⟩
  | none => ⟨cacheMatch cache req, cache, true, true⟩

/-- CACHE_NAME of the v3 service worker. -/
def CACHE_NAME : String := "news-pwa-v3"

/-- The install phase opens (hence creates) the current cache version while
populating the static asset manifest. -/
def installKeys (keys : Finset String) : Finset String :=
  insert CACHE_NAME keys

/-- The activate phase deletes every cache whose key differs from
CACHE_NAME, so exactly the keys equal to CACHE_NAME remain. -/
def activateKeys (keys : Finset String) : Finset String :=
  keys.filter (fun k => k = CACHE_NAME)

-- =============================================
-- Orchestrator: the refreshAll single-flight guard
-- =============================================

/-- The mutable application state relevant to refreshAll: the
`isRefreshing` flag and a counter of section-load fan-outs performed (each
actual run of refreshAll performs exactly one three-section fan-out). -/
structure AppState where
  isRefreshing : Bool
  fanOuts : Nat
deriving DecidableEq

/-- The synchronous prefix of refreshAll: if a refresh is in flight the call
returns at once (no fan-out); otherwise the flag is raised and the
three forced section loads are dispatched. -/
def refreshAllStart (s : AppState) : AppState :=
  if s.isRefreshing then s
  else { isRefreshing := true, fanOuts := s.fanOuts + 1 }

/-- The completion of refreshAll: after the awaited loads settle, the
last-refreshed marker is updated and the flag is lowered. -/
def refreshAllFinish (s : AppState) : AppState :=
  { s with isRefreshing := false }

-- =============================================
-- Lemmas about the sort model
-- =============================================

/-- Equation lemma for insertC on a nonempty list. -/
lemma insertC_cons (c : α → α → Int) (x y : α) (ys : List α) :
    insertC c x (y :: ys) =
      if c x y ≤ 0 then x :: y :: ys else y :: insertC c x ys := rfl

/-- Inserting with any comparator permutes. -/
lemma insertC_perm (c : α → α → Int) (x : α) :
    ∀ l : List α, List.Perm (insertC c x l) (x :: l)
  | [] => List.Perm.refl _
  | y :: ys => by
      rw [insertC_cons]
      by_cases h : c x y ≤ 0
      · rw [if_pos h]
      · rw [if_neg h]
        exact (List.Perm.cons y (insertC_perm c x ys)).trans (List.Perm.swap x y ys)

/-- The sort model permutes its input. -/
lemma sortC_perm (c : α → α → Int) : ∀ l : List α, List.Perm (sortC c l) l
  | [] => List.Perm.refl _
  | x :: xs => by
      show List.Perm (insertC c x (sortC c xs)) (x :: xs)
      exact (insertC_perm c x (sortC c xs)).trans (List.Perm.cons x (sortC_perm c xs))

/-- Inserting an element whose comparisons against the list agree with the
integer key preserves descending sortedness. -/
lemma insertC_sorted (c : α → α → Int) (key : α → Int) (x : α) :
    ∀ l : List α, (∀ y ∈ l, (c x y ≤ 0 ↔ key y ≤ key x)) →
      sortedDescB key l = true → sortedDescB key (insertC c x l) = true
  | [], _, _ => rfl
  | [y], H, _ => by
      rw [insertC_cons]
      by_cases hc : c x y ≤ 0
      · have h1 : key y ≤ key x := (H y (by simp)).mp hc
        rw [if_pos hc]
        simp [sortedDescB, h1]
      · have h1 : key x ≤ key y :=
          le_of_not_le (fun hyx => hc ((H y (by simp)).mpr hyx))
        rw [if_neg hc]
        simp [insertC, sortedDescB, h1]
  | y :: z :: zs, H, h => by
      have hzy : key z ≤ key y := by
        have h2 := h
        simp [sortedDescB] at h2
        exact h2.1
      have hzs : sortedDescB key (z :: zs) = true := by
        have h2 := h
        simp only [sortedDescB, Bool.and_eq_true] at h2 ⊢
        exact h2.2
      rw [insertC_cons]
      by_cases hc : c x y ≤ 0
      · have h1 : key y ≤ key x := (H y (by simp)).mp hc
        rw [if_pos hc]
        simp only [sortedDescB, Bool.and_eq_true, decide_eq_true_eq]
        refine ⟨h1, ?_, ?_⟩
        · simpa [sortedDescB, Bool.and_eq_true, decide_eq_true_eq] using hzy
        · simpa [sortedDescB, Bool.and_eq_true] using
            (by simpa [sortedDescB, Bool.and_eq_true] using hzs : sortedDescB key (z :: zs) = true)
      · have hxy : key x ≤ key y :=
          le_of_not_le (fun hyx => hc ((H y (by simp)).mpr hyx))
        rw [if_neg hc]
        have ih := insertC_sorted c key x (z :: zs)
          (fun w hw => H w (by simp at hw ⊢; tauto)) hzs
        by_cases hc2 : c x z ≤ 0
        · have e1 : insertC c x (z :: zs) = x :: z :: zs := by
            rw [insertC_cons, if_pos hc2]
          rw [e1] at ih ⊢
          simp only [sortedDescB, Bool.and_eq_true, decide_eq_true_eq] at ih ⊢
          exact ⟨hxy, ih⟩
        · have e1 : insertC c x (z :: zs) = z :: insertC c x zs := by
            rw [insertC_cons, if_neg hc2]
          rw [e1] at ih ⊢
          simp only [sortedDescB, Bool.and_eq_true, decide_eq_true_eq] at ih ⊢
          exact ⟨hzy, ih⟩

/-- The sort model sorts descending by any integer key that agrees with the
comparator on the elements of the list. -/
lemma sortC_sorted_key (c : α → α → Int) (key : α → Int) :
    ∀ l : List α, (∀ a ∈ l, ∀ b ∈ l, (c a b ≤ 0 ↔ key b ≤ key a)) →
      sortedDescB key (sortC c l) = true
  | [], _ => rfl
  | x :: xs, H => by
      show sortedDescB key (insertC c x (sortC c xs)) = true
      apply insertC_sorted
      · intro y hy
        have hy2 : y ∈ xs := ((sortC_perm c xs).mem_iff).mp hy
        exact H x (by simp) y (by simp [hy2])
      · exact sortC_sorted_key c key xs
          (fun a ha b hb => H a (by simp [ha]) b (by simp [hb]))

/-- A concrete instance of the date valuation, used for witness inputs: a
nonempty digit string parses to its numeric millisecond value, anything else
is an invalid date (in particular the empty string, matching
`new Date("")`). -/
def dateOf0 (s : String) : Option Int :=
  if s.toList.all Char.isDigit ∧ s.toList ≠ [] then
    some (s.toList.foldl (fun n c => n * 10 + (Int.ofNat (c.toNat - 48))) 0)
  else none

/-- Concrete item with an empty (hence unparsable) pubDate. -/
def itemX : NewsItem :=
  { title := "x", description := "", link := "#", pubDate := "",
    source := "s", lang := "ru" }

/-- Concrete item with pubDate parsing to 100. -/
def itemA : NewsItem :=
  { title := "a", description := "", link := "#", pubDate := "100",
    source := "s", lang := "ru" }

/-- Concrete item with pubDate parsing to 50. -/
def itemB : NewsItem :=
  { title := "b", description := "", link := "#", pubDate := "50",
    source := "s", lang := "ru" }

-- =============================================
-- Claim theorems
-- =============================================

/-- C1 counterexample: the claim fails as stated.  With one item whose
pubDate is empty (hence unparsable) and two items with parsable pubDates
100 and 50, fetchSection returns the invalid-date item first, not last:
the comparator yields NaN (treated as +0 by SortCompare) for every pair
involving it, so it compares equal to everything instead of as the epoch.
The output is not sorted descending under the claimed epoch-valued key. -/
theorem fetchSectionSort_invalid_pubDate_not_last :
    fetchSectionSort dateOf0 [[itemX, itemA, itemB]] = [itemX, itemA, itemB] ∧
    sortedDescB (epochKey dateOf0)
      (fetchSectionSort dateOf0 [[itemX, itemA, itemB]]) = false := by
  constructor <;> decide

/-- C1 (amended): when every merged item has a parsable pubDate, the list
returned by fetchSection is a permutation of the concatenated feed results
sorted by pubDate descending.  Items with missing or unparsable pubDate
compare as equal to every other item (the comparator evaluates to NaN,
which SortCompare treats as +0), so they keep their stable-sort position
rather than sorting as the epoch or deterministically last. -/
theorem fetchSectionSort_sorted_of_parsable (dateOf : String → Option Int)
    (results : List (List NewsItem))
    (h : ∀ i ∈ results.flatten, (dateOf i.pubDate).isSome = true) :
    sortedDescB (epochKey dateOf) (fetchSectionSort dateOf results) = true ∧
    List.Perm (fetchSectionSort dateOf results) results.flatten := by
  constructor
  · apply sortC_sorted_key
    intro a ha b hb
    obtain ⟨ta, hta⟩ := Option.isSome_iff_exists.mp (h a ha)
    obtain ⟨tb, htb⟩ := Option.isSome_iff_exists.mp (h b hb)
    simp only [jsDateCmp, hta, htb, epochKey, Option.getD_some]
    omega
  · exact sortC_perm _ _

/-- C1 witness: the amended theorem applied to a concrete two-item section
whose pubDates both parse. -/
theorem fetchSectionSort_sorted_of_parsable_witness :
    sortedDescB (epochKey dateOf0) (fetchSectionSort dateOf0 [[itemB, itemA]]) = true ∧
    List.Perm (fetchSectionSort dateOf0 [[itemB, itemA]]) [itemB, itemA] := by
  have h := fetchSectionSort_sorted_of_parsable dateOf0 [[itemB, itemA]] (by decide)
  simpa using h

/-- C2: getCachedData returns null exactly when the stored entry is missing,
fails to parse, or carries a numeric timestamp older than CACHE_DURATION_MS;
and a get performed on the store produced by a successful set, within the
TTL and with no intervening write, returns exactly the stored items (the
entry written by that set). -/
theorem getCachedData_null_iff_and_roundtrip (store : Store) (now : Int)
    (sect : String) :
    (getCachedData store now sect = none ↔
      store ("news_" ++ sect) = none ∨
      store ("news_" ++ sect) = some .malformed ∨
      ∃ t items, store ("news_" ++ sect) = some (.entry (some t) items) ∧
        now - t > CACHE_DURATION_MS) ∧
    (∀ (items : List NewsItem) (now2 : Int),
      now2 - now ≤ CACHE_DURATION_MS →
      getCachedData (setCachedData store now sect items true) now2 sect =
        some ⟨some now, items⟩) := by
  constructor
  · cases hs : store ("news_" ++ sect) with
    | none =>
        unfold getCachedData
        rw [hs]
        simp
    | some e =>
        cases e with
        | malformed =>
            unfold getCachedData
            rw [hs]
            simp
        | entry ts items =>
            cases ts with
            | none =>
                unfold getCachedData
                rw [hs]
                simp
            | some t =>
                unfold getCachedData
                rw [hs]
                change (if now - t > CACHE_DURATION_MS then (none : Option CacheEntry)
                        else some ⟨some t, items⟩) = none ↔ _
                by_cases hage : now - t > CACHE_DURATION_MS
                · rw [if_pos hage]
                  constructor
                  · intro _
                    exact Or.inr (Or.inr ⟨t, items, rfl, hage⟩)
                  · intro _
                    rfl
                · rw [if_neg hage]
                  constructor
                  · intro hfalse
                    cases hfalse
                  · rintro (h | h | ⟨t2, items2, ht2, hage2⟩)
                    · cases h
                    · cases h
                    · obtain ⟨h3, h4⟩ :=
                        by simpa using ht2
                      subst h3
                      exact absurd hage2 hage
  · intro items now2 httl
    have hset : setCachedData store now sect items true ("news_" ++ sect)
        = some (.entry (some now) items) := by
      unfold setCachedData
      simp
    unfold getCachedData
    rw [hset]
    show (if now2 - now > CACHE_DURATION_MS then none
          else some (⟨some now, items⟩ : CacheEntry)) = some ⟨some now, items⟩
    rw [if_neg (by omega)]

/-- C2 witness: on an empty store, a set at time 0 followed by a get at
time 5 (within the one-hour TTL) returns the freshly stored entry, and the
null-iff characterization holds for that store. -/
theorem getCachedData_null_iff_and_roundtrip_witness :
    getCachedData
      (setCachedData (fun _ => none) 0 "czech" [itemA] true) 5 "czech" =
      some ⟨some 0, [itemA]⟩ := by
  exact (getCachedData_null_iff_and_roundtrip (fun _ => none) 0 "czech").2
    [itemA] 5 (by norm_num [CACHE_DURATION_MS])

/-- C9: an entry that parses but whose timestamp field is missing or
non-numeric is returned as if fresh: the age is `Date.now() - undefined`,
i.e. NaN, and `NaN > CACHE_DURATION_MS` is false, so getCachedData does not
return null. -/
theorem getCachedData_nan_timestamp_fresh (store : Store) (now : Int)
    (sect : String) (items : List NewsItem)
    (h : store ("news_" ++ sect) = some (.entry none items)) :
    getCachedData store now sect = some ⟨none, items⟩ := by
  unfold getCachedData
  rw [h]

/-- C9 witness: a concrete store holding a timestamp-free entry under
news_czech, read at an arbitrary concrete time. -/
theorem getCachedData_nan_timestamp_fresh_witness :
    getCachedData
      (fun k => if k = "news_czech" then some (.entry none [itemA]) else none)
      999999999 "czech" = some ⟨none, [itemA]⟩ := by
  exact getCachedData_nan_timestamp_fresh _ 999999999 "czech" [itemA] (by decide)

/-- Equation lemma: fetchFeed on an OK response with a parsed payload
reduces to the status and items checks followed by the normalization and
translation stages. -/
lemma fetchFeed_okResp (cfg : FeedSource) (tr : String → String → String)
    (status : String) (its : Option (List RawItem)) :
    fetchFeed cfg (some ⟨true, some ⟨status, its⟩⟩) tr =
      (if status ≠ "ok" then []
       else
         match its with
         | none => []
         | some l =>
             let rawItems := (l.take MAX_ITEMS_PER_FEED).map (normalizeItem cfg)
             if cfg.lang ≠ "ru" then rawItems.map (translateItemM tr cfg.lang)
             else rawItems) := rfl

/-- C4: on every fault of the proxy fetch (rejected promise, non-OK status,
unparsable body, payload status other than ok, absent item list) fetchFeed
returns the empty list; being a total function of the settled outcome, it
never throws. -/
theorem fetchFeed_fault_empty (cfg : FeedSource) (resp : Option ProxyResp)
    (tr : String → String → String) (h : proxyFault resp) :
    fetchFeed cfg resp tr = [] := by
  rcases h with h | ⟨r, hr, hfault⟩
  · subst h
    rfl
  · subst hr
    obtain ⟨ok, payload⟩ := r
    rcases hfault with hok | hpay | ⟨p, hp, hbad⟩
    · have : ok = false := hok
      subst this
      rfl
    · have : payload = none := hpay
      subst this
      cases ok <;> rfl
    · have : payload = some p := hp
      subst this
      cases ok with
      | false => rfl
      | true =>
          obtain ⟨status, its⟩ := p
          rw [fetchFeed_okResp]
          rcases hbad with hst | hits
          · rw [if_pos hst]
          · have : its = none := hits
            subst this
            by_cases hst : status ≠ "ok"
            · rw [if_pos hst]
            · rw [if_neg hst]

/-- C4 witness: a response that arrives OK but whose payload carries
status error and no items yields the empty list. -/
theorem fetchFeed_fault_empty_witness :
    fetchFeed ⟨"https://x/rss", "X", "ru"⟩
      (some ⟨true, some ⟨"error", none⟩⟩) (fun _ t => t) = [] := by
  exact fetchFeed_fault_empty _ _ _
    (Or.inr ⟨_, rfl, Or.inr (Or.inr ⟨_, rfl, Or.inl (by decide)⟩)⟩)

/-- C5: when the source language is ru or the text is empty, translateText
returns the text unchanged, leaves the memo cache untouched, and issues no
network request. -/
theorem translateText_identity_fast_path (text fromLang : String)
    (cache : TransCache) (net : TransNet)
    (h : text = "" ∨ fromLang = "ru") :
    translateText text fromLang cache net = ⟨text, cache, false⟩ := by
  unfold translateText
  rw [if_pos h]

/-- C5 witness: the fast path applied to the empty text and to a ru-language
text, against a network outcome that would have changed the result. -/
theorem translateText_identity_fast_path_witness :
    translateText "" "cs" [] (.resp true (some "zzz")) = ⟨"", [], false⟩ ∧
    translateText "Привет" "ru" [] (.resp true (some "zzz")) =
      ⟨"Привет", [], false⟩ := by
  exact ⟨translateText_identity_fast_path _ _ _ _ (Or.inl rfl),
    translateText_identity_fast_path _ _ _ _ (Or.inr rfl)⟩

/-- C10: on the slow path (nonempty non-ru text missing from the memo), a
failed translation attempt returns the original text and records nothing in
the memo cache, so a later call with the same text and language issues a new
network request. -/
theorem translateText_failure_not_memoized (text fromLang : String)
    (cache : TransCache) (net net2 : TransNet)
    (ht : ¬ (text = "" ∨ fromLang = "ru"))
    (hm : transLookup cache (transKey text fromLang) = none)
    (hf : transNetFailed net) :
    (translateText text fromLang cache net).cache = cache ∧
    (translateText text fromLang cache net).text = text ∧
    (translateText text fromLang
      ((translateText text fromLang cache net).cache) net2).requested = true := by
  have hcall : translateText text fromLang cache net = ⟨text, cache, true⟩ := by
    unfold translateText
    rw [if_neg ht, hm]
    rcases hf with h | ⟨p, h⟩ | h
    · rw [h]
    · rw [h]
      rfl
    · rw [h]
      rfl
  refine ⟨by rw [hcall], by rw [hcall], ?_⟩
  rw [hcall]
  unfold translateText
  rw [if_neg ht, hm]
  cases net2 with
  | fail => rfl
  | resp ok payload =>
      cases ok with
      | false => rfl
      | true =>
          cases payload with
          | none => rfl
          | some tr => rfl

/-- C10 witness: a concrete failed attempt (non-OK response) for a Czech
text on an empty memo, followed by a second attempt that does fetch. -/
theorem translateText_failure_not_memoized_witness :
    (translateText "ahoj" "cs" [] (.resp false none)).cache = [] ∧
    (translateText "ahoj" "cs" [] (.resp false none)).text = "ahoj" ∧
    (translateText "ahoj" "cs"
      ((translateText "ahoj" "cs" [] (.resp false none)).cache)
      (.resp true (some "привет"))).requested = true := by
  exact translateText_failure_not_memoized "ahoj" "cs" [] _ _
    (by decide) (by decide) (Or.inr (Or.inl ⟨none, rfl⟩))

/-- C7: refreshAll is single-flight.  A start issued while a refresh is in
flight (isRefreshing already raised) changes nothing and performs no section
fan-out; completion lowers the flag, and a start issued after completion
performs exactly one new fan-out. -/
theorem refreshAll_single_flight (s : AppState) (h : s.isRefreshing = true) :
    refreshAllStart s = s ∧
    (refreshAllFinish s).isRefreshing = false ∧
    (refreshAllStart (refreshAllFinish s)).fanOuts = s.fanOuts + 1 ∧
    (refreshAllStart (refreshAllFinish s)).isRefreshing = true := by
  refine ⟨?_, rfl, ?_, ?_⟩
  · unfold refreshAllStart
    rw [h]
    rfl
  · unfold refreshAllStart refreshAllFinish
    rfl
  · unfold refreshAllStart refreshAllFinish
    rfl

/-- C7 witness: the single-flight guard exercised on the concrete in-flight
state with two fan-outs already performed. -/
theorem refreshAll_single_flight_witness :
    refreshAllStart ⟨true, 2⟩ = (⟨true, 2⟩ : AppState) ∧
    (refreshAllFinish ⟨true, 2⟩).isRefreshing = false ∧
    (refreshAllStart (refreshAllFinish ⟨true, 2⟩)).fanOuts = 3 ∧
    (refreshAllStart (refreshAllFinish ⟨true, 2⟩)).isRefreshing = true := by
  exact refreshAll_single_flight ⟨true, 2⟩ rfl

/-- C8: an activation following the install of the current worker deletes
every cache version other than CACHE_NAME and leaves exactly the singleton
current version: install opens (creates) the current cache, activate filters
out every differing key. -/
theorem activate_leaves_exactly_current (keys : Finset String) :
    activateKeys (installKeys keys) = {CACHE_NAME} ∧
    ∀ k ∈ keys, k ≠ CACHE_NAME → k ∉ activateKeys (installKeys keys) := by
  constructor
  · ext x
    simp only [activateKeys, installKeys, Finset.mem_filter, Finset.mem_insert,
      Finset.mem_singleton]
    constructor
    · intro hx
      exact hx.2
    · intro hx
      exact ⟨Or.inl hx, hx⟩
  · intro k _ hne
    simp only [activateKeys, installKeys, Finset.mem_filter, Finset.mem_insert]
    intro hx
    exact hne hx.2

/-- C8 witness: activating over the stale version news-pwa-v1 deletes it and
leaves exactly the current version. -/
theorem activate_leaves_exactly_current_witness :
    activateKeys (installKeys {"news-pwa-v1"}) = {CACHE_NAME} ∧
    "news-pwa-v1" ∉ activateKeys (installKeys {"news-pwa-v1"}) := by
  refine ⟨(activate_leaves_exactly_current {"news-pwa-v1"}).1, ?_⟩
  exact (activate_leaves_exactly_current {"news-pwa-v1"}).2 "news-pwa-v1"
    (Finset.mem_singleton_self _) (by decide)

/-- C3 counterexample: the claim fails as stated for the v1 service worker
present in the repository (sw.js, news-pwa-v1), whose same-origin branch is
cache-first.  On a cache hit, no network fetch is attempted and the cached
(stale) response is returned even though the network would have answered. -/
theorem sameOriginV1_cache_hit_skips_network :
    (handleSameOriginV1 "/app.js" (some ⟨true, "fresh"⟩)
      [("/app.js", ⟨true, "stale"⟩)]).networkAttempted = false ∧
    (handleSameOriginV1 "/app.js" (some ⟨true, "fresh"⟩)
      [("/app.js", ⟨true, "stale"⟩)]).response = some ⟨true, "stale"⟩ := by
  constructor <;> rfl

/-- C3 (amended): the network-first policy holds for the v3 service worker
(news-pwa-v3): for every same-origin request a live network fetch is always
attempted; every settled response (in particular every successful one) is
cloned into the cache, where a match for the request then finds it, and the
response itself is returned; the cache is consulted only when the network
fetch fails, in which case the cached match is returned.  The v1 worker in
sw.js is cache-first for same-origin requests instead. -/
theorem sameOriginV3_network_first (req : String) (net : Option SWResponse)
    (cache : AssetCache) :
    (handleSameOriginV3 req net cache).networkAttempted = true ∧
    (∀ r, net = some r →
      (handleSameOriginV3 req net cache).response = some r ∧
      (handleSameOriginV3 req net cache).cache = cachePut cache req r ∧
      cacheMatch (handleSameOriginV3 req net cache).cache req = some r) ∧
    ((handleSameOriginV3 req net cache).cacheConsulted = true ↔ net = none) ∧
    (net = none →
      (handleSameOriginV3 req net cache).response = cacheMatch cache req ∧
      (handleSameOriginV3 req net cache).cache = cache) := by
  cases net with
  | none =>
      refine ⟨rfl, ?_, by simp [handleSameOriginV3], fun _ => ⟨rfl, rfl⟩⟩
      intro r hr
      cases hr
  | some r0 =>
      refine ⟨rfl, ?_, by simp [handleSameOriginV3], ?_⟩
      · intro r hr
        obtain rfl : r0 = r := by injection hr
        refine ⟨rfl, rfl, ?_⟩
        simp [handleSameOriginV3, cachePut, cacheMatch, List.find?]
      · intro hnone
        cases hnone

/-- C3 witness: the v3 handler exercised on a request whose network fetch
succeeds (response cached and returned) and on one whose network fetch
fails (cache fallback). -/
theorem sameOriginV3_network_first_witness :
    (handleSameOriginV3 "/app.js" (some ⟨true, "fresh"⟩) []).response =
      some ⟨true, "fresh"⟩ ∧
    cacheMatch (handleSameOriginV3 "/app.js" (some ⟨true, "fresh"⟩) []).cache
      "/app.js" = some ⟨true, "fresh"⟩ ∧
    (handleSameOriginV3 "/style.css" none
      [("/style.css", ⟨true, "cached"⟩)]).response = some ⟨true, "cached"⟩ ∧
    (handleSameOriginV3 "/style.css" none
      [("/style.css", ⟨true, "cached"⟩)]).networkAttempted = true := by
  refine ⟨?_, ?_, ?_, ?_⟩
  · exact ((sameOriginV3_network_first "/app.js" (some ⟨true, "fresh"⟩) []).2.1
      ⟨true, "fresh"⟩ rfl).1
  · exact ((sameOriginV3_network_first "/app.js" (some ⟨true, "fresh"⟩) []).2.1
      ⟨true, "fresh"⟩ rfl).2.2
  · have h := ((sameOriginV3_network_first "/style.css" none
      [("/style.css", ⟨true, "cached"⟩)]).2.2.2 rfl).1
    rw [h]
    rfl
  · exact (sameOriginV3_network_first "/style.css" none
      [("/style.css", ⟨true, "cached"⟩)]).1

/-- The length of a JavaScript slice is bounded by its argument. -/
lemma jsSlice_length_le (s : String) (n : Nat) : (jsSlice s n).length ≤ n := by
  show (s.toList.take n).length ≤ n
  exact List.length_take_le n s.toList

/-- translateItem never changes the link of an item. -/
lemma translateItemM_link (tr : String → String → String) (l : String)
    (i : NewsItem) : (translateItemM tr l i).link = i.link := by
  unfold translateItemM
  split
  · rfl
  · rfl

/-- The normalized link is never empty: a missing or empty raw link becomes
the hash placeholder. -/
lemma normalizeItem_link_ne_empty (cfg : FeedSource) (raw : RawItem) :
    (normalizeItem cfg raw).link ≠ "" := by
  show (if raw.link.getD "" = "" then "#" else raw.link.getD "") ≠ ""
  split
  · decide
  · assumption

/-- A raw item without a link is normalized to the hash placeholder. -/
lemma normalizeItem_link_hash (cfg : FeedSource) (raw : RawItem)
    (h : raw.link = none) : (normalizeItem cfg raw).link = "#" := by
  show (if raw.link.getD "" = "" then "#" else raw.link.getD "") = "#"
  rw [h]
  rfl

/-- The normalized description is the markup-stripped raw description sliced
to 300 characters, hence at most 300 characters long. -/
lemma normalizeItem_desc_le (cfg : FeedSource) (raw : RawItem) :
    (normalizeItem cfg raw).description.length ≤ 300 :=
  jsSlice_length_le _ 300

/-- Case analysis of fetchFeed: the output is empty or is the (possibly
translated) normalization of the first MAX_ITEMS_PER_FEED raw items. -/
lemma fetchFeed_cases (cfg : FeedSource) (resp : Option ProxyResp)
    (tr : String → String → String) :
    fetchFeed cfg resp tr = [] ∨
    ∃ its : List RawItem,
      fetchFeed cfg resp tr =
        (if cfg.lang ≠ "ru"
         then ((its.take MAX_ITEMS_PER_FEED).map (normalizeItem cfg)).map
           (translateItemM tr cfg.lang)
         else (its.take MAX_ITEMS_PER_FEED).map (normalizeItem cfg)) := by
  cases resp with
  | none => exact Or.inl rfl
  | some r =>
      obtain ⟨ok, payload⟩ := r
      cases ok with
      | false => exact Or.inl rfl
      | true =>
          cases payload with
          | none => exact Or.inl rfl
          | some p =>
              obtain ⟨status, its⟩ := p
              rw [fetchFeed_okResp]
              by_cases hst : status ≠ "ok"
              · rw [if_pos hst]
                exact Or.inl rfl
              · rw [if_neg hst]
                cases its with
                | none => exact Or.inl rfl
                | some l => exact Or.inr ⟨l, rfl⟩

/-- Identity translation oracle (every translateText call settles to its
input, as on total translation failure). -/
def tr0 : String → String → String := fun _ t => t

/-- A translation oracle whose result is 301 characters long, as the
external translation service may legitimately return. -/
def trLong : String → String → String :=
  fun _ _ => String.mk (List.replicate 301 'x')

/-- A Czech-language feed source (items get translated). -/
def cfgCs0 : FeedSource := ⟨"https://ex/rss", "Ex", "cs"⟩

/-- A Russian-language feed source (items are returned untranslated). -/
def cfgRu0 : FeedSource := ⟨"https://ex/rss", "Ex", "ru"⟩

/-- A raw proxy item with title and description but no link. -/
def rawOne : RawItem := ⟨some "Titulek", some "popis", none, some "100"⟩

/-- A successful proxy response carrying exactly rawOne. -/
def respOne : Option ProxyResp := some ⟨true, some ⟨"ok", some [rawOne]⟩⟩

set_option maxRecDepth 4000 in
/-- C6 counterexample: the claim fails as stated for translated feeds.  For
a Czech feed the 300-character truncation is applied before translation, and
the translated description replaces the truncated one, so when the
translation service returns 301 characters the returned item carries a
description longer than 300 characters. -/
theorem fetchFeed_translated_desc_over_300 :
    ¬ (∀ i ∈ fetchFeed cfgCs0 respOne trLong, i.description.length ≤ 300) := by
  decide

/-- C6 (amended): fetchFeed returns at most MAX_ITEMS_PER_FEED items, every
returned item is the normalization of some raw item (markup stripped from
the title, description markup-stripped and sliced to 300 characters, a
missing or empty link defaulted to the hash placeholder), translated when
the feed language is not ru; no returned link is empty, a missing raw link
always yields the hash link, and for ru feeds (where no translation rewrites
the description) every returned description has at most 300 characters.
For translated feeds the truncation applies to the pre-translation text and
the translated description length is unbounded. -/
theorem fetchFeed_shape (cfg : FeedSource) (resp : Option ProxyResp)
    (tr : String → String → String) :
    (fetchFeed cfg resp tr).length ≤ MAX_ITEMS_PER_FEED ∧
    (∀ i ∈ fetchFeed cfg resp tr, i.link ≠ "") ∧
    (∀ i ∈ fetchFeed cfg resp tr, ∃ raw : RawItem,
      i = (if cfg.lang = "ru" then normalizeItem cfg raw
           else translateItemM tr cfg.lang (normalizeItem cfg raw))) ∧
    (cfg.lang = "ru" →
      ∀ i ∈ fetchFeed cfg resp tr, i.description.length ≤ 300) ∧
    (∀ raw : RawItem, raw.link = none →
      (normalizeItem cfg raw).link = "#" ∧
      (translateItemM tr cfg.lang (normalizeItem cfg raw)).link = "#") := by
  have hlast : ∀ raw : RawItem, raw.link = none →
      (normalizeItem cfg raw).link = "#" ∧
      (translateItemM tr cfg.lang (normalizeItem cfg raw)).link = "#" := by
    intro raw h
    refine ⟨normalizeItem_link_hash cfg raw h, ?_⟩
    rw [translateItemM_link]
    exact normalizeItem_link_hash cfg raw h
  rcases fetchFeed_cases cfg resp tr with h | ⟨its, h⟩
  · rw [h]
    refine ⟨by simp, by simp, by simp, fun _ => by simp, hlast⟩
  · rw [h]
    by_cases hru : cfg.lang = "ru"
    · have hcond : ¬ cfg.lang ≠ "ru" := by simp [hru]
      rw [if_neg hcond]
      refine ⟨?_, ?_, ?_, ?_, hlast⟩
      · rw [List.length_map]
        exact List.length_take_le _ _
      · intro i hi
        obtain ⟨raw, _, rfl⟩ := List.mem_map.mp hi
        exact normalizeItem_link_ne_empty cfg raw
      · intro i hi
        obtain ⟨raw, _, rfl⟩ := List.mem_map.mp hi
        exact ⟨raw, by rw [if_pos hru]⟩
      · intro _ i hi
        obtain ⟨raw, _, rfl⟩ := List.mem_map.mp hi
        exact normalizeItem_desc_le cfg raw
    · have hcond : cfg.lang ≠ "ru" := hru
      rw [if_pos hcond]
      refine ⟨?_, ?_, ?_, ?_, hlast⟩
      · rw [List.length_map, List.length_map]
        exact List.length_take_le _ _
      · intro i hi
        obtain ⟨j, hj, rfl⟩ := List.mem_map.mp hi
        obtain ⟨raw, _, rfl⟩ := List.mem_map.mp hj
        rw [translateItemM_link]
        exact normalizeItem_link_ne_empty cfg raw
      · intro i hi
        obtain ⟨j, hj, rfl⟩ := List.mem_map.mp hi
        obtain ⟨raw, _, rfl⟩ := List.mem_map.mp hj
        exact ⟨raw, by rw [if_neg hru]⟩
      · intro hcontra
        exact absurd hcontra hru

/-- C6 witness: the amended theorem exercised on a concrete Russian feed
whose single raw item lacks a link: one item comes back, its description is
within 300 characters and its link is the hash placeholder. -/
theorem fetchFeed_shape_witness :
    (fetchFeed cfgRu0 respOne tr0).length ≤ MAX_ITEMS_PER_FEED ∧
    (∀ i ∈ fetchFeed cfgRu0 respOne tr0, i.description.length ≤ 300) ∧
    (normalizeItem cfgRu0 rawOne).link = "#" := by
  refine ⟨(fetchFeed_shape cfgRu0 respOne tr0).1, ?_, ?_⟩
  · exact (fetchFeed_shape cfgRu0 respOne tr0).2.2.2.1 rfl
  · exact ((fetchFeed_shape cfgRu0 respOne tr0).2.2.2.2 rawOne rfl).1

end NewsPWA
